import Mathlib

/-!
Shallow embedding of the professional-signup-hub write path:
the `Professional` model (models.py), the bulk item validator
(serializers.py, backed by framework field validation), the bulk upsert
orchestrator `ProfessionalBulkUpsertView.post` (views.py) and the list
filter (filters.py).  Stores are explicit lists of rows; the storage
layer's unique constraints are modelled as conflict predicates checked at
write time, mirroring the database raising `IntegrityError`.
-/

namespace SignupHub

/-- Membership in the `source` enumeration `Professional.Source`
(models.py): direct, partner, internal. -/
def validSource (s : String) : Bool :=
  s == "direct" || s == "partner" || s == "internal"

/-- A stored `Professional` row (models.py).  `id` is the primary key,
`created_at` a logical timestamp assigned at insert time.  `email` is
nullable; `phone` is not. -/
structure Professional where
  id : Nat
  full_name : String
  email : Option String
  phone : String
  company_name : String
  job_title : String
  source : String
  created_at : Nat
deriving Repr, DecidableEq

/-- The database table together with the id/timestamp counter used for
fresh inserts. -/
structure Store where
  recs : List Professional
  nextId : Nat
deriving Repr, DecidableEq

/-- One raw JSON object of the bulk payload.  `none` models a key that is
absent or carries JSON null; `some ""` models a present empty string. -/
structure RawRecord where
  full_name : Option String
  email : Option String
  phone : Option String
  company_name : Option String
  job_title : Option String
  source : Option String
deriving Repr, DecidableEq

/-- A record after validation: every field present and normalized
(`validated_data` of the item serializer).  `email = none` is null. -/
structure NormRecord where
  full_name : String
  email : Option String
  phone : String
  company_name : String
  job_title : String
  source : String
deriving Repr, DecidableEq

/-- Stand-in for the framework's syntactic email-format validator. -/
def emailFormatOk (e : String) : Bool := e.toList.contains '@'

/-- Field errors for `full_name`: required, non-blank, at most 255
characters (models.py `CharField(max_length=255)`). -/
def fullNameErrors (r : RawRecord) : List (String × String) :=
  match r.full_name with
  | none => [("full_name", "This field is required.")]
  | some s =>
      if s == "" then [("full_name", "This field may not be blank.")]
      else if 255 < s.length then
        [("full_name", "Ensure this field has no more than 255 characters.")]
      else []

/-- Field errors for `email`: optional and nullable, blank allowed, but a
non-empty value must be syntactically valid.  Uniqueness is deliberately
not checked here (serializers.py strips the unique validators on the bulk
path). -/
def emailErrors (r : RawRecord) : List (String × String) :=
  match r.email with
  | none => []
  | some e =>
      if e == "" then []
      else if emailFormatOk e then []
      else [("email", "Enter a valid email address.")]

/-- Field errors for `phone`: required, non-blank, at most 20 characters
(models.py `CharField(max_length=20)`; no `blank=True`).  Uniqueness is
not checked on the bulk path. -/
def phoneErrors (r : RawRecord) : List (String × String) :=
  match r.phone with
  | none => [("phone", "This field is required.")]
  | some s =>
      if s == "" then [("phone", "This field may not be blank.")]
      else if 20 < s.length then
        [("phone", "Ensure this field has no more than 20 characters.")]
      else []

/-- Field errors for `source`: required and restricted to the enumeration. -/
def sourceErrors (r : RawRecord) : List (String × String) :=
  match r.source with
  | none => [("source", "This field is required.")]
  | some s => if validSource s then [] else [("source", "is not a valid choice.")]

/-- All field errors of one raw record, keyed by field name. -/
def allErrors (r : RawRecord) : List (String × String) :=
  fullNameErrors r ++ emailErrors r ++ phoneErrors r ++ sourceErrors r

/-- Email normalization: a missing or empty email becomes null. -/
def normalizeEmail : Option String → Option String
  | none => none
  | some e => if e == "" then none else some e

/-- Defaults applied to an accepted record: missing optional text fields
become the empty string, a missing or empty email becomes null. -/
def normalize (r : RawRecord) : NormRecord :=
  { full_name := r.full_name.getD ""
    email := normalizeEmail r.email
    phone := r.phone.getD ""
    company_name := r.company_name.getD ""
    job_title := r.job_title.getD ""
    source := r.source.getD "" }

/-- Modelled from the spec: the Record Validator of §4.1, i.e.
`BulkProfessionalItemSerializer` together with the framework field
validation it configures — the framework's validation engine is not part
of this repository's sources.  Checks presence, blankness, length, format
and choice-set membership per the schema of §3 with uniqueness checks
suppressed, and returns either a fully normalized record (defaults
applied) or the field-keyed error map. -/
def validate (r : RawRecord) : Except (List (String × String)) NormRecord :=
  if allErrors r = [] then .ok (normalize r) else .error (allErrors r)

/-- Python truthiness of the optional `email` read from validated data
(`if email:` in views.py): absent, null and empty string are all falsy. -/
def emailTruthy : Option String → Bool
  | none => false
  | some e => !(e == "")

/-- `Professional.objects.filter(email=email).first()`.  Under the store's
uniqueness invariant at most one row matches, so the list order is
immaterial. -/
def findByEmail (st : Store) (e : String) : Option Professional :=
  st.recs.find? (fun p => p.email == some e)

/-- `Professional.objects.filter(phone=phone).first()`. -/
def findByPhone (st : Store) (ph : String) : Option Professional :=
  st.recs.find? (fun p => p.phone == ph)

/-- Step 3 of views.py: `if email: ... elif phone: ...` — lookup by email
when email is truthy, else by phone when phone is truthy, else no lookup. -/
def resolveExisting (st : Store) (v : NormRecord) : Option Professional :=
  if emailTruthy v.email then findByEmail st (v.email.getD "")
  else if v.phone == "" then none
  else findByPhone st v.phone

/-- Whether INSERTing a row with these identifiers violates a unique
constraint: `email` is unique among non-null values, `phone` is unique
outright (the database raising `IntegrityError` on
`Professional.objects.create`). -/
def insertConflict (st : Store) (v : NormRecord) : Bool :=
  st.recs.any (fun p => (v.email.isSome && p.email == v.email) || p.phone == v.phone)

/-- Whether saving row `nr` (same primary key as the looked-up row)
violates a unique constraint against a *different* row (the database
raising `IntegrityError` on `existing.save()`). -/
def updateConflict (st : Store) (selfId : Nat) (nr : Professional) : Bool :=
  st.recs.any (fun p =>
    p.id != selfId && ((nr.email.isSome && p.email == nr.email) || p.phone == nr.phone))

/-- `Professional.objects.create(**validated)`: a fresh row from the
normalized fields, with a new primary key and insertion timestamp. -/
def insertRecord (st : Store) (v : NormRecord) : Store × Professional :=
  let p : Professional :=
    { id := st.nextId, full_name := v.full_name, email := v.email,
      phone := v.phone, company_name := v.company_name,
      job_title := v.job_title, source := v.source, created_at := st.nextId }
  ({ recs := st.recs ++ [p], nextId := st.nextId + 1 }, p)

/-- `for field, value in validated.items(): setattr(existing, field, value)`:
every normalized field overwrites the existing row; primary key and
`created_at` are untouched. -/
def overwrite (ex : Professional) (v : NormRecord) : Professional :=
  { ex with
    full_name := v.full_name
    email := v.email
    phone := v.phone
    company_name := v.company_name
    job_title := v.job_title
    source := v.source }

/-- Commit of `existing.save()`: replace the row with that primary key. -/
def replaceRecord (st : Store) (p : Professional) : Store :=
  { st with recs := st.recs.map (fun q => if q.id == p.id then p else q) }

/-- A `created`/`updated` bucket entry: original index plus the stored
row's public representation. -/
structure OkEntry where
  index : Nat
  professional : Professional
deriving Repr, DecidableEq

/-- An `errors` bucket entry: original index, the raw submitted item, and
the field-keyed (or non-field) error map. -/
structure ErrEntry where
  index : Nat
  data : RawRecord
  errors : List (String × String)
deriving Repr, DecidableEq

/-- The outcome of processing one record of the batch. -/
inductive Outcome
  | createdOut (e : OkEntry)
  | updatedOut (e : OkEntry)
  | errorOut (e : ErrEntry)
deriving Repr, DecidableEq

/-- The index an outcome is tagged with. -/
def outcomeIndex : Outcome → Nat
  | .createdOut e => e.index
  | .updatedOut e => e.index
  | .errorOut e => e.index

/-- The three result buckets of a bulk response. -/
structure BatchResult where
  created : List OkEntry
  updated : List OkEntry
  errors : List ErrEntry
deriving Repr, DecidableEq

/-- Error body of the defensive "neither email nor phone" branch in
views.py. -/
def defensiveErrors : List (String × String) :=
  [("non_field_errors", "Either email or phone is required.")]

/-- Error body of a write rejected by the storage layer (`str(e)` of the
`IntegrityError`, modelled as a fixed message). -/
def integrityErrors : List (String × String) :=
  [("non_field_errors", "UNIQUE constraint failed")]

/-- One iteration of the loop body of `ProfessionalBulkUpsertView.post`
(views.py): validate, resolve identity, look up, write, classify.  Returns
the store after this record's (possibly absent) commit together with the
outcome appended to a bucket. -/
def upsertOne (st : Store) (index : Nat) (item : RawRecord) : Store × Outcome :=
  match validate item with
  | .error errs => (st, .errorOut ⟨index, item, errs⟩)
  | .ok v =>
      if !emailTruthy v.email && v.phone == "" then
        (st, .errorOut ⟨index, item, defensiveErrors⟩)
      else
        match resolveExisting st v with
        | some ex =>
            let nr := overwrite ex v
            if updateConflict st ex.id nr then
              (st, .errorOut ⟨index, item, integrityErrors⟩)
            else (replaceRecord st nr, .updatedOut ⟨index, nr⟩)
        | none =>
            if insertConflict st v then
              (st, .errorOut ⟨index, item, integrityErrors⟩)
            else
              let sp := insertRecord st v
              (sp.1, .createdOut ⟨index, sp.2⟩)

/-- Cons an outcome onto the front of the result its batch tail produced.
Because the loop appends each record's outcome before processing later
records, building the buckets back-to-front by consing is the same list. -/
def prependOutcome (o : Outcome) (r : BatchResult) : BatchResult :=
  match o with
  | .createdOut e => { r with created := e :: r.created }
  | .updatedOut e => { r with updated := e :: r.updated }
  | .errorOut e => { r with errors := e :: r.errors }

/-- The loop of `ProfessionalBulkUpsertView.post`, started at `index`:
process each record strictly in order, each commit visible to the next
record's lookup. -/
def upsertAux (st : Store) (index : Nat) : List RawRecord → Store × BatchResult
  | [] => (st, ⟨[], [], []⟩)
  | item :: rest =>
      let so := upsertOne st index item
      let sr := upsertAux so.1 (index + 1) rest
      (sr.1, prependOutcome so.2 sr.2)

/-- `upsert_batch`: the whole per-record pipeline over the ordered input,
returning the final store and the three buckets. -/
def upsertBatch (st : Store) (items : List RawRecord) : Store × BatchResult :=
  upsertAux st 0 items

/-- The request body of the bulk endpoint: either a JSON list of objects
or something that is not a list. -/
inductive Payload
  | listPayload (items : List RawRecord)
  | nonList
deriving Repr, DecidableEq

/-- The response of the bulk endpoint. -/
inductive BulkResponse
  | badRequest (detail : String)
  | okResponse (result : BatchResult)
deriving Repr, DecidableEq

/-- `ProfessionalBulkUpsertView.post`: reject a non-list payload outright
with 400 before any per-item processing, otherwise run the batch loop and
answer 200 with the three buckets.  Returns the response and the store
after the request. -/
def post (st : Store) (p : Payload) : BulkResponse × Store :=
  match p with
  | .nonList => (.badRequest "Expected a list of professional objects.", st)
  | .listPayload items =>
      let sr := upsertBatch st items
      (.okResponse sr.2, sr.1)

/-- `ProfessionalFilter` + the model's `-created_at` ordering: the list
endpoint's result for an optional `?source=` filter value. -/
def listProfessionals (st : Store) (src : Option String) : List Professional :=
  let all := st.recs.mergeSort (fun a b => decide (b.created_at ≤ a.created_at))
  match src with
  | none => all
  | some s => all.filter (fun p => p.source == s)

/-- Sum of the three bucket sizes. -/
def totalLen (r : BatchResult) : Nat :=
  r.created.length + r.updated.length + r.errors.length

/-- How many entries across all three buckets carry index `i`. -/
def countIndex (r : BatchResult) (i : Nat) : Nat :=
  r.created.countP (fun e => e.index == i) +
    r.updated.countP (fun e => e.index == i) +
    r.errors.countP (fun e => e.index == i)

/-- Every index tag appearing in the three buckets, bucket by bucket. -/
def allIndices (r : BatchResult) : List Nat :=
  r.created.map OkEntry.index ++ r.updated.map OkEntry.index ++
    r.errors.map ErrEntry.index

/-- Fixture row mirroring tests.py record A. -/
def exRowA : Professional :=
  ⟨0, "Record A", some "a@example.com", "111", "", "", "direct", 0⟩

/-- Fixture row mirroring tests.py record B. -/
def exRowB : Professional :=
  ⟨1, "Record B", some "b@example.com", "222", "", "", "direct", 1⟩

/-- Fixture row mirroring tests.py test #21's stored record. -/
def exRowU : Professional :=
  ⟨0, "Original Name", some "u@example.com", "111", "Original Co",
    "Original Title", "direct", 0⟩

/-- Fixture raw item: first of an in-batch duplicate pair (tests.py #18). -/
def rawFirst : RawRecord :=
  ⟨some "First", some "dup@example.com", some "111", none, none, some "direct"⟩

/-- Fixture raw item: second of an in-batch duplicate pair (tests.py #18). -/
def rawSecond : RawRecord :=
  ⟨some "Second", some "dup@example.com", some "111", none, none, some "direct"⟩

/-- Fixture raw item triggering the cross-identity conflict (tests.py #15). -/
def rawConflict : RawRecord :=
  ⟨some "Conflict", some "a@example.com", some "222", none, none, some "direct"⟩

/-- Fixture raw item updating `exRowU` with omitted optional fields. -/
def rawUpdate : RawRecord :=
  ⟨some "New Name", some "u@example.com", some "111", none, none, some "direct"⟩

/-- Fixture raw item with no phone (fails validation; tests.py #17). -/
def rawNoPhone : RawRecord :=
  ⟨some "C", none, none, none, none, some "direct"⟩

theorem validate_ok_iff {r : RawRecord} {v : NormRecord} :
    validate r = .ok v ↔ allErrors r = [] ∧ v = normalize r := by
  unfold validate
  constructor
  · intro h
    by_cases hc : allErrors r = []
    · simp [hc] at h
      exact ⟨hc, h.symm⟩
    · simp [hc] at h
  · rintro ⟨h1, h2⟩
    simp [h1, h2]

theorem allErrors_nil (h : allErrors r = []) :
    fullNameErrors r = [] ∧ emailErrors r = [] ∧ phoneErrors r = [] ∧
      sourceErrors r = [] := by
  unfold allErrors at h
  simp only [List.append_eq_nil] at h
  exact ⟨h.1.1.1, h.1.1.2, h.1.2, h.2⟩

theorem phoneErrors_nil {r : RawRecord} (h : phoneErrors r = []) :
    ∃ s, r.phone = some s ∧ s ≠ "" ∧ s.length ≤ 20 := by
  unfold phoneErrors at h
  match hp : r.phone with
  | none => rw [hp] at h; simp at h
  | some s =>
      rw [hp] at h
      by_cases hb : s = ""
      · simp [hb] at h
      · by_cases hl : 20 < s.length
        · simp [hb, hl] at h
        · exact ⟨s, rfl, hb, Nat.le_of_not_lt hl⟩

/-- Every record accepted by validation has a non-empty phone. -/
theorem validate_ok_phone_ne {r : RawRecord} {v : NormRecord}
    (h : validate r = .ok v) : v.phone ≠ "" := by
  obtain ⟨hnil, hv⟩ := validate_ok_iff.mp h
  obtain ⟨s, hp, hne, _⟩ := phoneErrors_nil (allErrors_nil hnil).2.2.1
  subst hv
  simp [normalize, hp]
  exact hne

/-- Normalized email is never the empty string. -/
theorem validate_ok_email_ne {r : RawRecord} {v : NormRecord}
    (h : validate r = .ok v) : v.email ≠ some "" := by
  obtain ⟨_, hv⟩ := validate_ok_iff.mp h
  subst hv
  simp only [normalize]
  unfold normalizeEmail
  match he : r.email with
  | none => simp
  | some e =>
      by_cases hb : e = ""
      · simp [hb]
      · simp [hb]

theorem upsertOne_invalid {item : RawRecord} {errs : List (String × String)}
    (st : Store) (idx : Nat) (h : validate item = .error errs) :
    upsertOne st idx item = (st, .errorOut ⟨idx, item, errs⟩) := by
  unfold upsertOne
  rw [h]

theorem upsertOne_found {item : RawRecord} {v : NormRecord} {ex : Professional}
    (st : Store) (idx : Nat)
    (hval : validate item = .ok v) (hres : resolveExisting st v = some ex) :
    upsertOne st idx item =
      if updateConflict st ex.id (overwrite ex v) then
        (st, .errorOut ⟨idx, item, integrityErrors⟩)
      else (replaceRecord st (overwrite ex v), .updatedOut ⟨idx, overwrite ex v⟩) := by
  have hph := validate_ok_phone_ne hval
  have hb : (v.phone == "") = false := by simp [hph]
  unfold upsertOne
  rw [hval]
  simp [hb, hres]

theorem upsertOne_notfound {item : RawRecord} {v : NormRecord}
    (st : Store) (idx : Nat)
    (hval : validate item = .ok v) (hres : resolveExisting st v = none) :
    upsertOne st idx item =
      if insertConflict st v then (st, .errorOut ⟨idx, item, integrityErrors⟩)
      else ((insertRecord st v).1, .createdOut ⟨idx, (insertRecord st v).2⟩) := by
  have hph := validate_ok_phone_ne hval
  have hb : (v.phone == "") = false := by simp [hph]
  unfold upsertOne
  rw [hval]
  simp [hb, hres]

/-- Every outcome is tagged with the index of the record it came from. -/
theorem upsertOne_index (st : Store) (idx : Nat) (item : RawRecord) :
    outcomeIndex (upsertOne st idx item).2 = idx := by
  match hval : validate item with
  | .error errs => rw [upsertOne_invalid st idx hval]; rfl
  | .ok v =>
      match hres : resolveExisting st v with
      | some ex =>
          rw [upsertOne_found st idx hval hres]
          cases hc : updateConflict st ex.id (overwrite ex v) <;>
            simp [hc, outcomeIndex]
      | none =>
          rw [upsertOne_notfound st idx hval hres]
          cases hc : insertConflict st v <;> simp [hc, outcomeIndex]

/-- An error outcome carries its record's index and the raw submitted item. -/
theorem upsertOne_error_data {st : Store} {idx : Nat} {item : RawRecord}
    {e : ErrEntry} (h : (upsertOne st idx item).2 = .errorOut e) :
    e.index = idx ∧ e.data = item := by
  match hval : validate item with
  | .error errs =>
      rw [upsertOne_invalid st idx hval] at h
      cases h
      exact ⟨rfl, rfl⟩
  | .ok v =>
      match hres : resolveExisting st v with
      | some ex =>
          rw [upsertOne_found st idx hval hres] at h
          split at h
          · have h2 : Outcome.errorOut ⟨idx, item, integrityErrors⟩ = .errorOut e := h
            injection h2 with h3
            subst h3
            exact ⟨rfl, rfl⟩
          · simp at h
      | none =>
          rw [upsertOne_notfound st idx hval hres] at h
          split at h
          · have h2 : Outcome.errorOut ⟨idx, item, integrityErrors⟩ = .errorOut e := h
            injection h2 with h3
            subst h3
            exact ⟨rfl, rfl⟩
          · simp at h

theorem totalLen_prepend (o : Outcome) (r : BatchResult) :
    totalLen (prependOutcome o r) = totalLen r + 1 := by
  cases o <;> simp [totalLen, prependOutcome] <;> omega

theorem countIndex_prepend (o : Outcome) (r : BatchResult) (i : Nat) :
    countIndex (prependOutcome o r) i =
      (if outcomeIndex o = i then 1 else 0) + countIndex r i := by
  cases o <;>
    simp [countIndex, prependOutcome, outcomeIndex, List.countP_cons] <;>
    split_ifs <;> omega

theorem mem_allIndices_prepend {o : Outcome} {r : BatchResult} {i : Nat} :
    i ∈ allIndices (prependOutcome o r) ↔ i = outcomeIndex o ∨ i ∈ allIndices r := by
  cases o <;>
    simp only [allIndices, prependOutcome, outcomeIndex, List.map_cons,
      List.mem_append, List.mem_cons] <;>
    tauto

theorem mem_allIndices_of_created {r : BatchResult} {i : Nat}
    (h : i ∈ r.created.map OkEntry.index) : i ∈ allIndices r := by
  unfold allIndices
  simp only [List.mem_append]
  tauto

theorem mem_allIndices_of_updated {r : BatchResult} {i : Nat}
    (h : i ∈ r.updated.map OkEntry.index) : i ∈ allIndices r := by
  unfold allIndices
  simp only [List.mem_append]
  tauto

theorem mem_allIndices_of_errors {r : BatchResult} {i : Nat}
    (h : i ∈ r.errors.map ErrEntry.index) : i ∈ allIndices r := by
  unfold allIndices
  simp only [List.mem_append]
  tauto

/-- Each input record contributes exactly one bucket entry. -/
theorem upsertAux_totalLen (l : List RawRecord) :
    ∀ st idx, totalLen (upsertAux st idx l).2 = l.length := by
  induction l with
  | nil => intro st idx; rfl
  | cons item rest ih =>
      intro st idx
      simp only [upsertAux]
      rw [totalLen_prepend, ih]
      simp

/-- Indices produced from records processed starting at `idx` lie in
`[idx, idx + length)`. -/
theorem upsertAux_index_bound (l : List RawRecord) :
    ∀ st idx i, i ∈ allIndices (upsertAux st idx l).2 →
      idx ≤ i ∧ i < idx + l.length := by
  induction l with
  | nil => intro st idx i h; simp [upsertAux, allIndices] at h
  | cons item rest ih =>
      intro st idx i h
      simp only [upsertAux] at h
      rw [mem_allIndices_prepend, upsertOne_index] at h
      rcases h with h | h
      · subst h; simp
      · have := ih _ (idx + 1) i h
        simp only [List.length_cons]
        omega

/-- Each in-range index is carried by exactly one entry across the three
buckets; out-of-range indices by none. -/
theorem upsertAux_countIndex (l : List RawRecord) :
    ∀ st idx i, countIndex (upsertAux st idx l).2 i =
      if idx ≤ i ∧ i < idx + l.length then 1 else 0 := by
  induction l with
  | nil =>
      intro st idx i
      simp only [upsertAux, List.length_nil]
      rw [show countIndex ⟨[], [], []⟩ i = 0 from rfl]
      split_ifs <;> omega
  | cons item rest ih =>
      intro st idx i
      simp only [upsertAux, List.length_cons]
      rw [countIndex_prepend, upsertOne_index, ih]
      split_ifs <;> omega

/-- Each bucket's index tags are strictly ascending. -/
theorem upsertAux_sorted (l : List RawRecord) :
    ∀ st idx,
      ((upsertAux st idx l).2.created.map OkEntry.index).Pairwise (· < ·) ∧
      ((upsertAux st idx l).2.updated.map OkEntry.index).Pairwise (· < ·) ∧
      ((upsertAux st idx l).2.errors.map ErrEntry.index).Pairwise (· < ·) := by
  induction l with
  | nil => intro st idx; simp [upsertAux]
  | cons item rest ih =>
      intro st idx
      simp only [upsertAux]
      obtain ⟨ihc, ihu, ihe⟩ := ih (upsertOne st idx item).1 (idx + 1)
      have hidx := upsertOne_index st idx item
      have hgt : ∀ j, j ∈ allIndices (upsertAux (upsertOne st idx item).1 (idx + 1) rest).2 →
          idx < j := by
        intro j hj
        have := upsertAux_index_bound rest _ (idx + 1) j hj
        omega
      cases ho : (upsertOne st idx item).2 with
      | createdOut e =>
          rw [ho] at hidx
          simp only [prependOutcome, List.map_cons]
          refine ⟨List.pairwise_cons.mpr ⟨?_, ihc⟩, ihu, ihe⟩
          simp only [outcomeIndex] at hidx
          intro j hj
          have := hgt j (mem_allIndices_of_created hj)
          omega
      | updatedOut e =>
          rw [ho] at hidx
          simp only [prependOutcome, List.map_cons]
          refine ⟨ihc, List.pairwise_cons.mpr ⟨?_, ihu⟩, ihe⟩
          simp only [outcomeIndex] at hidx
          intro j hj
          have := hgt j (mem_allIndices_of_updated hj)
          omega
      | errorOut e =>
          rw [ho] at hidx
          simp only [prependOutcome, List.map_cons]
          refine ⟨ihc, ihu, List.pairwise_cons.mpr ⟨?_, ihe⟩⟩
          simp only [outcomeIndex] at hidx
          intro j hj
          have := hgt j (mem_allIndices_of_errors hj)
          omega

/-- Every `errors` entry holds the raw item submitted at its index. -/
theorem upsertAux_error_data (l : List RawRecord) :
    ∀ st idx, ∀ e ∈ (upsertAux st idx l).2.errors,
      ∃ j, j < l.length ∧ e.index = idx + j ∧ l[j]? = some e.data := by
  induction l with
  | nil => intro st idx e h; simp [upsertAux] at h
  | cons item rest ih =>
      intro st idx e h
      simp only [upsertAux] at h
      cases ho : (upsertOne st idx item).2 with
      | createdOut e0 =>
          rw [ho] at h
          simp only [prependOutcome] at h
          obtain ⟨j, hj, hjidx, hget⟩ := ih _ (idx + 1) e h
          exact ⟨j + 1, by simp; omega, by omega, by simpa using hget⟩
      | updatedOut e0 =>
          rw [ho] at h
          simp only [prependOutcome] at h
          obtain ⟨j, hj, hjidx, hget⟩ := ih _ (idx + 1) e h
          exact ⟨j + 1, by simp; omega, by omega, by simpa using hget⟩
      | errorOut e0 =>
          rw [ho] at h
          simp only [prependOutcome, List.mem_cons] at h
          rcases h with h | h
          · have hd := upsertOne_error_data ho
            subst h
            exact ⟨0, by simp, by simpa using hd.1, by simp [hd.2]⟩
          · obtain ⟨j, hj, hjidx, hget⟩ := ih _ (idx + 1) e h
            exact ⟨j + 1, by simp; omega, by omega, by simpa using hget⟩

theorem overwrite_id (ex : Professional) (v : NormRecord) :
    (overwrite ex v).id = ex.id := rfl

theorem overwrite_email (ex : Professional) (v : NormRecord) :
    (overwrite ex v).email = v.email := rfl

theorem overwrite_phone (ex : Professional) (v : NormRecord) :
    (overwrite ex v).phone = v.phone := rfl

theorem insertRecord_recs (st : Store) (v : NormRecord) :
    (insertRecord st v).1.recs = st.recs ++ [(insertRecord st v).2] := rfl

theorem insertRecord_snd_id (st : Store) (v : NormRecord) :
    (insertRecord st v).2.id = st.nextId := rfl

theorem insertRecord_snd_email (st : Store) (v : NormRecord) :
    (insertRecord st v).2.email = v.email := rfl

theorem map_id_of {α : Type} {f : α → α} {l : List α}
    (h : ∀ x ∈ l, f x = x) : l.map f = l := by
  induction l with
  | nil => rfl
  | cons a t ih =>
      simp only [List.map_cons, h a (by simp)]
      rw [ih (fun x hx => h x (by simp [hx]))]

/-- The loop touches neither the store nor `created`/`updated` when every
record fails validation; the errors bucket has one entry per record. -/
theorem upsertAux_all_invalid (l : List RawRecord) :
    ∀ st idx, (∀ item ∈ l, ∃ errs, validate item = .error errs) →
      (upsertAux st idx l).1 = st ∧ (upsertAux st idx l).2.created = [] ∧
      (upsertAux st idx l).2.updated = [] ∧
      (upsertAux st idx l).2.errors.length = l.length := by
  induction l with
  | nil => intro st idx h; exact ⟨rfl, rfl, rfl, rfl⟩
  | cons item rest ih =>
      intro st idx h
      obtain ⟨errs, herrs⟩ := h item (by simp)
      have hone := upsertOne_invalid st idx herrs
      obtain ⟨h1, h2, h3, h4⟩ := ih st (idx + 1) (fun x hx => h x (by simp [hx]))
      simp only [upsertAux, hone, prependOutcome]
      exact ⟨h1, h2, h3, by simp [h4]⟩

/-- C8: a batch in which every record fails validation leaves the store
untouched, produces empty `created` and `updated` buckets, and one
`errors` entry per record. -/
theorem c8_all_invalid_batch (st : Store) (items : List RawRecord)
    (h : ∀ item ∈ items, ∃ errs, validate item = .error errs) :
    (upsertBatch st items).1 = st ∧
    (upsertBatch st items).2.created = [] ∧
    (upsertBatch st items).2.updated = [] ∧
    (upsertBatch st items).2.errors.length = items.length :=
  upsertAux_all_invalid items st 0 h

theorem c8_all_invalid_batch_witness :
    (upsertBatch ⟨[], 0⟩ [rawNoPhone]).1 = ⟨[], 0⟩ ∧
    (upsertBatch ⟨[], 0⟩ [rawNoPhone]).2.created = [] ∧
    (upsertBatch ⟨[], 0⟩ [rawNoPhone]).2.updated = [] ∧
    (upsertBatch ⟨[], 0⟩ [rawNoPhone]).2.errors.length = [rawNoPhone].length :=
  c8_all_invalid_batch ⟨[], 0⟩ [rawNoPhone]
    (by intro item hi
        simp only [List.mem_singleton] at hi
        subst hi
        exact ⟨allErrors rawNoPhone, rfl⟩)

/-- C10: across one batch the three buckets partition the submitted
indices — each index below the input length is carried by exactly one
entry of exactly one bucket, indices at or beyond it by none, the bucket
sizes sum to the input length, and the empty batch yields three empty
buckets. -/
theorem c10_buckets_partition (st : Store) (items : List RawRecord) :
    (∀ i, countIndex (upsertBatch st items).2 i =
        if i < items.length then 1 else 0) ∧
    totalLen (upsertBatch st items).2 = items.length ∧
    (upsertBatch st ([] : List RawRecord)).2 = ⟨[], [], []⟩ := by
  refine ⟨?_, upsertAux_totalLen items st 0, rfl⟩
  intro i
  rw [upsertBatch, upsertAux_countIndex items st 0 i]
  split_ifs <;> omega

/-- C5: a non-list payload is answered with the generic bad request and no
per-item processing (the store is returned untouched); every list payload
— including one whose records all fail — is answered with the single 200
response carrying the three buckets, one entry per submitted record
(the batch is never aborted early). -/
theorem c5_payload_contract (st : Store) :
    post st .nonList = (.badRequest "Expected a list of professional objects.", st) ∧
    ∀ items, (post st (.listPayload items)).1 = .okResponse (upsertBatch st items).2 ∧
      (post st (.listPayload items)).2 = (upsertBatch st items).1 ∧
      totalLen (upsertBatch st items).2 = items.length :=
  ⟨rfl, fun items => ⟨rfl, rfl, upsertAux_totalLen items st 0⟩⟩

/-- C6: every bucket entry's index is the zero-based position of its
originating record — each bucket's index tags are strictly ascending and
below the input length, and every `errors` entry holds exactly the raw
item submitted at its index. -/
theorem c6_index_fidelity (st : Store) (items : List RawRecord) :
    (((upsertBatch st items).2.created.map OkEntry.index).Pairwise (· < ·) ∧
     ((upsertBatch st items).2.updated.map OkEntry.index).Pairwise (· < ·) ∧
     ((upsertBatch st items).2.errors.map ErrEntry.index).Pairwise (· < ·)) ∧
    (∀ i ∈ allIndices (upsertBatch st items).2, i < items.length) ∧
    (∀ e ∈ (upsertBatch st items).2.errors,
      e.index < items.length ∧ items[e.index]? = some e.data) := by
  refine ⟨upsertAux_sorted items st 0, ?_, ?_⟩
  · intro i hi
    have := upsertAux_index_bound items st 0 i hi
    omega
  · intro e he
    obtain ⟨j, hj, hidx, hget⟩ := upsertAux_error_data items st 0 e he
    refine ⟨by omega, ?_⟩
    rw [hidx, Nat.zero_add]
    exact hget

theorem c6_index_fidelity_witness :
    (⟨0, rawNoPhone, [("phone", "This field is required.")]⟩ : ErrEntry).index <
      [rawNoPhone].length ∧
    [rawNoPhone][(⟨0, rawNoPhone, [("phone", "This field is required.")]⟩ :
      ErrEntry).index]? =
      some (⟨0, rawNoPhone, [("phone", "This field is required.")]⟩ : ErrEntry).data :=
  (c6_index_fidelity ⟨[], 0⟩ [rawNoPhone]).2.2
    ⟨0, rawNoPhone, [("phone", "This field is required.")]⟩ (by decide)

/-- Rows written by one loop iteration never carry an empty-string email. -/
theorem upsertOne_no_empty_email {st : Store} {idx : Nat} {item : RawRecord}
    (h : ∀ p ∈ st.recs, p.email ≠ some "") :
    ∀ p ∈ (upsertOne st idx item).1.recs, p.email ≠ some "" := by
  match hval : validate item with
  | .error errs => rw [upsertOne_invalid st idx hval]; exact h
  | .ok v =>
      have hve := validate_ok_email_ne hval
      match hres : resolveExisting st v with
      | some ex =>
          rw [upsertOne_found st idx hval hres]
          cases hc : updateConflict st ex.id (overwrite ex v)
          · rw [if_neg (by simp [hc])]
            intro p hp
            simp only [replaceRecord, List.mem_map] at hp
            obtain ⟨q, hq, hpq⟩ := hp
            by_cases hqid : (q.id == (overwrite ex v).id) = true
            · rw [if_pos hqid] at hpq
              subst hpq
              simpa [overwrite] using hve
            · rw [if_neg hqid] at hpq
              subst hpq
              exact h q hq
          · exact h
      | none =>
          rw [upsertOne_notfound st idx hval hres]
          cases hc : insertConflict st v
          · rw [if_neg (by simp [hc])]
            intro p hp
            rw [insertRecord_recs] at hp
            simp only [List.mem_append, List.mem_singleton] at hp
            rcases hp with hp | hp
            · exact h p hp
            · subst hp
              rw [insertRecord_snd_email]
              exact hve
          · exact h

theorem upsertAux_no_empty_email (l : List RawRecord) :
    ∀ st idx, (∀ p ∈ st.recs, p.email ≠ some "") →
      ∀ p ∈ (upsertAux st idx l).1.recs, p.email ≠ some "" := by
  induction l with
  | nil => intro st idx h; exact h
  | cons item rest ih =>
      intro st idx h
      exact ih _ (idx + 1) (upsertOne_no_empty_email h)

/-- C3: validation applies the defaults — a missing optional text field
becomes the empty string, a missing or empty email becomes null, so the
normalized email is never the empty string — and consequently a store
without empty-string emails still has none after any batch. -/
theorem c3_normalization_defaults :
    (∀ r v, validate r = .ok v →
      (r.company_name = none → v.company_name = "") ∧
      (r.job_title = none → v.job_title = "") ∧
      ((r.email = none ∨ r.email = some "") → v.email = none) ∧
      v.email ≠ some "") ∧
    (∀ st items, (∀ p ∈ st.recs, p.email ≠ some "") →
      ∀ p ∈ (upsertBatch st items).1.recs, p.email ≠ some "") := by
  constructor
  · intro r v hv
    have hve := validate_ok_email_ne hv
    obtain ⟨_, hnorm⟩ := validate_ok_iff.mp hv
    subst hnorm
    refine ⟨?_, ?_, ?_, hve⟩
    · intro h; simp [normalize, h]
    · intro h; simp [normalize, h]
    · intro h; rcases h with h | h <;> simp [normalize, normalizeEmail, h]
  · intro st items h
    exact upsertAux_no_empty_email items st 0 h

theorem c3_normalization_defaults_witness :
    ((⟨some "Minimal", some "", some "555", none, none, some "direct"⟩ :
        RawRecord).company_name = none →
      (normalize ⟨some "Minimal", some "", some "555", none, none,
        some "direct"⟩).company_name = "") ∧
    ((⟨some "Minimal", some "", some "555", none, none, some "direct"⟩ :
        RawRecord).job_title = none →
      (normalize ⟨some "Minimal", some "", some "555", none, none,
        some "direct"⟩).job_title = "") ∧
    (((⟨some "Minimal", some "", some "555", none, none, some "direct"⟩ :
        RawRecord).email = none ∨
      (⟨some "Minimal", some "", some "555", none, none, some "direct"⟩ :
        RawRecord).email = some "") →
      (normalize ⟨some "Minimal", some "", some "555", none, none,
        some "direct"⟩).email = none) ∧
    (normalize ⟨some "Minimal", some "", some "555", none, none,
      some "direct"⟩).email ≠ some "" :=
  c3_normalization_defaults.1
    ⟨some "Minimal", some "", some "555", none, none, some "direct"⟩
    (normalize ⟨some "Minimal", some "", some "555", none, none, some "direct"⟩)
    rfl

/-- C7: a record without a phone value always fails validation with an
error keyed on `phone`, whatever its email; every validated record has a
non-empty phone, so the guard of the defensive "neither email nor phone"
branch in views.py is always false — the branch is unreachable. -/
theorem c7_phone_mandatory :
    (∀ r, (r.phone = none ∨ r.phone = some "") →
      validate r = .error (allErrors r) ∧ "phone" ∈ (allErrors r).map Prod.fst) ∧
    (∀ r v, validate r = .ok v → v.phone ≠ "" ∧
      (!emailTruthy v.email && v.phone == "") = false) := by
  constructor
  · intro r hr
    have hpe : ∃ m, phoneErrors r = [("phone", m)] := by
      rcases hr with h | h
      · exact ⟨"This field is required.", by simp [phoneErrors, h]⟩
      · exact ⟨"This field may not be blank.", by simp [phoneErrors, h]⟩
    obtain ⟨m, hm⟩ := hpe
    have hne : allErrors r ≠ [] := by
      simp [allErrors, hm]
    constructor
    · simp [validate, hne]
    · simp only [allErrors, hm, List.map_append, List.mem_append]
      left; right
      simp
  · intro r v hv
    have hph := validate_ok_phone_ne hv
    refine ⟨hph, ?_⟩
    have hb : (v.phone == "") = false := by simp [hph]
    simp [hb]

theorem c7_phone_mandatory_witness :
    validate rawNoPhone = .error (allErrors rawNoPhone) ∧
    "phone" ∈ (allErrors rawNoPhone).map Prod.fst :=
  c7_phone_mandatory.1 rawNoPhone (Or.inl rfl)

/-- C9: filtering the list endpoint by a value outside the `source`
enumeration returns the empty result set (never an error), provided every
stored row carries an in-enumeration source; filtering by any value
returns exactly the stored rows whose source equals it. -/
theorem c9_list_filter_leniency (st : Store) (s : String)
    (hall : ∀ p ∈ st.recs, validSource p.source = true) :
    (validSource s = false → listProfessionals st (some s) = []) ∧
    ∀ p, p ∈ listProfessionals st (some s) ↔ p ∈ st.recs ∧ p.source = s := by
  have hperm :=
    List.mergeSort_perm st.recs (fun a b => decide (b.created_at ≤ a.created_at))
  have hmem : ∀ p : Professional,
      p ∈ st.recs.mergeSort (fun a b => decide (b.created_at ≤ a.created_at)) ↔
        p ∈ st.recs :=
    fun p => hperm.mem_iff
  constructor
  · intro hs
    unfold listProfessionals
    apply List.filter_eq_nil_iff.mpr
    intro p hp
    simp only [beq_iff_eq]
    intro hps
    have hv := hall p ((hmem p).mp hp)
    rw [hps, hs] at hv
    exact Bool.false_ne_true hv
  · intro p
    unfold listProfessionals
    simp only [List.mem_filter, hmem, beq_iff_eq]

theorem c9_list_filter_leniency_witness :
    listProfessionals ⟨[exRowA], 1⟩ (some "invalid") = [] :=
  (c9_list_filter_leniency ⟨[exRowA], 1⟩ "invalid" (by decide)).1 (by decide)

/-- C2: when the lookup key matches an existing stored row, the write is a
whole-record replace — the updated bucket entry and the stored row are
`overwrite ex v`, every mutable field of which equals the normalized
input's, including optional fields omitted from the raw input and
defaulted by the Validator (an omitted `company_name` overwrites the
stored one with the empty string). -/
theorem c2_whole_record_replace (st : Store) (r : RawRecord) (v : NormRecord)
    (ex : Professional)
    (hv : validate r = .ok v) (hres : resolveExisting st v = some ex)
    (hnoc : updateConflict st ex.id (overwrite ex v) = false) :
    (upsertBatch st [r]).2 = ⟨[], [⟨0, overwrite ex v⟩], []⟩ ∧
    (overwrite ex v).full_name = v.full_name ∧
    (overwrite ex v).email = v.email ∧
    (overwrite ex v).phone = v.phone ∧
    (overwrite ex v).company_name = v.company_name ∧
    (overwrite ex v).job_title = v.job_title ∧
    (overwrite ex v).source = v.source ∧
    (r.company_name = none → (overwrite ex v).company_name = "") ∧
    (upsertBatch st [r]).1.recs =
      st.recs.map (fun q => if q.id == ex.id then overwrite ex v else q) := by
  have hone := upsertOne_found st 0 hv hres
  rw [if_neg (by simp [hnoc])] at hone
  have hbatch : upsertBatch st [r] =
      (replaceRecord st (overwrite ex v), ⟨[], [⟨0, overwrite ex v⟩], []⟩) := by
    simp [upsertBatch, upsertAux, hone, prependOutcome]
  rw [hbatch]
  refine ⟨rfl, rfl, rfl, rfl, rfl, rfl, rfl, ?_, rfl⟩
  intro h
  obtain ⟨_, hnorm⟩ := validate_ok_iff.mp hv
  subst hnorm
  simp [overwrite, normalize, h]

theorem c2_whole_record_replace_witness :
    (upsertBatch ⟨[exRowU], 1⟩ [rawUpdate]).2 =
      ⟨[], [⟨0, overwrite exRowU (normalize rawUpdate)⟩], []⟩ ∧
    (rawUpdate.company_name = none →
      (overwrite exRowU (normalize rawUpdate)).company_name = "") ∧
    (upsertBatch ⟨[exRowU], 1⟩ [rawUpdate]).1.recs =
      [exRowU].map (fun q =>
        if q.id == exRowU.id then overwrite exRowU (normalize rawUpdate) else q) := by
  have h := c2_whole_record_replace ⟨[exRowU], 1⟩ rawUpdate (normalize rawUpdate)
    exRowU (validate_ok_iff.mpr ⟨by rfl, rfl⟩) (by decide) (by decide)
  exact ⟨h.1, h.2.2.2.2.2.2.2.1, h.2.2.2.2.2.2.2.2⟩

/-- C4: with exactly rows A and B stored, upserting a record whose email
is A's but whose phone is B's produces the single non-field
constraint-violation error entry, empty `created` and `updated`, and
leaves the store — hence both A and B — completely unchanged. -/
theorem c4_cross_identity_conflict (st : Store) (A B : Professional)
    (r : RawRecord) (v : NormRecord) (a : String)
    (hst : st.recs = [A, B]) (hAe : A.email = some a) (hane : a ≠ "")
    (hid : B.id ≠ A.id)
    (hv : validate r = .ok v) (hve : v.email = some a) (hvp : v.phone = B.phone) :
    (upsertBatch st [r]).1 = st ∧
    (upsertBatch st [r]).2 = ⟨[], [], [⟨0, r, integrityErrors⟩]⟩ ∧
    integrityErrors.map Prod.fst = ["non_field_errors"] := by
  have htr : emailTruthy v.email = true := by simp [hve, emailTruthy, hane]
  have hfind : findByEmail st a = some A := by
    unfold findByEmail
    rw [hst]
    simp [List.find?_cons, hAe]
  have hres : resolveExisting st v = some A := by
    unfold resolveExisting
    rw [if_pos htr, hve]
    simpa using hfind
  have huc : updateConflict st A.id (overwrite A v) = true := by
    unfold updateConflict
    rw [hst]
    apply List.any_eq_true.mpr
    refine ⟨B, by simp, ?_⟩
    simp [overwrite_phone, hvp, bne_iff_ne, hid]
  have hone : upsertOne st 0 r = (st, .errorOut ⟨0, r, integrityErrors⟩) := by
    rw [upsertOne_found st 0 hv hres, if_pos huc]
  refine ⟨?_, ?_, rfl⟩
  · simp [upsertBatch, upsertAux, hone]
  · simp [upsertBatch, upsertAux, hone, prependOutcome]

theorem c4_cross_identity_conflict_witness :
    (upsertBatch ⟨[exRowA, exRowB], 2⟩ [rawConflict]).1 = ⟨[exRowA, exRowB], 2⟩ ∧
    (upsertBatch ⟨[exRowA, exRowB], 2⟩ [rawConflict]).2 =
      ⟨[], [], [⟨0, rawConflict, integrityErrors⟩]⟩ ∧
    integrityErrors.map Prod.fst = ["non_field_errors"] :=
  c4_cross_identity_conflict ⟨[exRowA, exRowB], 2⟩ exRowA exRowB rawConflict
    (normalize rawConflict) "a@example.com" rfl rfl (by decide) (by decide)
    (validate_ok_iff.mpr ⟨by rfl, rfl⟩) (by decide) (by decide)

/-- C1: two records of one batch sharing the same email lookup key, with
no prior stored row carrying that key (nor their phones, nor the fresh
primary key): the first lands in `created`, the second in `updated`, and
the stored row for that key after the batch carries the second record's
field values — last write in submission order wins. -/
theorem c1_in_batch_last_write_wins (st : Store) (r1 r2 : RawRecord)
    (v1 v2 : NormRecord) (e : String)
    (h1 : validate r1 = .ok v1) (h2 : validate r2 = .ok v2)
    (he1 : v1.email = some e) (he2 : v2.email = some e) (hne : e ≠ "")
    (hstE : ∀ p ∈ st.recs, p.email ≠ some e)
    (hstP1 : ∀ p ∈ st.recs, p.phone ≠ v1.phone)
    (hstP2 : ∀ p ∈ st.recs, p.phone ≠ v2.phone)
    (hfresh : ∀ p ∈ st.recs, p.id ≠ st.nextId) :
    (upsertBatch st [r1, r2]).2 =
      ⟨[⟨0, (insertRecord st v1).2⟩],
        [⟨1, overwrite (insertRecord st v1).2 v2⟩], []⟩ ∧
    (overwrite (insertRecord st v1).2 v2).full_name = v2.full_name ∧
    (overwrite (insertRecord st v1).2 v2).email = some e ∧
    (overwrite (insertRecord st v1).2 v2).phone = v2.phone ∧
    (overwrite (insertRecord st v1).2 v2).company_name = v2.company_name ∧
    (overwrite (insertRecord st v1).2 v2).job_title = v2.job_title ∧
    (overwrite (insertRecord st v1).2 v2).source = v2.source ∧
    (upsertBatch st [r1, r2]).1.recs =
      st.recs ++ [overwrite (insertRecord st v1).2 v2] := by
  have htr1 : emailTruthy v1.email = true := by simp [he1, emailTruthy, hne]
  have htr2 : emailTruthy v2.email = true := by simp [he2, emailTruthy, hne]
  have hfind1 : st.recs.find? (fun p => p.email == some e) = none := by
    apply List.find?_eq_none.mpr
    intro p hp
    simpa [beq_iff_eq] using hstE p hp
  have hres1 : resolveExisting st v1 = none := by
    unfold resolveExisting
    rw [if_pos htr1, he1]
    simpa [findByEmail] using hfind1
  have hic1 : insertConflict st v1 = false := by
    apply List.any_eq_false.mpr
    intro p hp
    simp only [he1, Option.isSome_some, Bool.true_and, Bool.or_eq_true,
      beq_iff_eq, not_or]
    exact ⟨hstE p hp, hstP1 p hp⟩
  have hone1 : upsertOne st 0 r1 =
      ((insertRecord st v1).1, .createdOut ⟨0, (insertRecord st v1).2⟩) := by
    rw [upsertOne_notfound st 0 h1 hres1, if_neg (by simp [hic1])]
  have hfind2 : findByEmail (insertRecord st v1).1 e =
      some (insertRecord st v1).2 := by
    unfold findByEmail
    rw [insertRecord_recs, List.find?_append, hfind1, Option.none_or]
    simp [List.find?_cons, insertRecord_snd_email, he1]
  have hres2 : resolveExisting (insertRecord st v1).1 v2 =
      some (insertRecord st v1).2 := by
    unfold resolveExisting
    rw [if_pos htr2, he2]
    simpa using hfind2
  have huc2 : updateConflict (insertRecord st v1).1 (insertRecord st v1).2.id
      (overwrite (insertRecord st v1).2 v2) = false := by
    unfold updateConflict
    rw [insertRecord_recs]
    simp only [List.any_append, Bool.or_eq_false_iff]
    constructor
    · apply List.any_eq_false.mpr
      intro p hp
      simp only [overwrite_email, overwrite_phone, insertRecord_snd_id, he2,
        Option.isSome_some, Bool.true_and, Bool.and_eq_true, Bool.or_eq_true,
        beq_iff_eq, bne_iff_ne, not_and, not_or]
      intro _
      exact ⟨hstE p hp, hstP2 p hp⟩
    · simp [List.any_cons]
  have hone2 : upsertOne (insertRecord st v1).1 1 r2 =
      (replaceRecord (insertRecord st v1).1 (overwrite (insertRecord st v1).2 v2),
        .updatedOut ⟨1, overwrite (insertRecord st v1).2 v2⟩) := by
    rw [upsertOne_found _ 1 h2 hres2, if_neg (by simp [huc2])]
  have hrep : (replaceRecord (insertRecord st v1).1
      (overwrite (insertRecord st v1).2 v2)).recs =
      st.recs ++ [overwrite (insertRecord st v1).2 v2] := by
    show List.map (fun q => if q.id == (overwrite (insertRecord st v1).2 v2).id
        then overwrite (insertRecord st v1).2 v2 else q)
      (insertRecord st v1).1.recs =
      st.recs ++ [overwrite (insertRecord st v1).2 v2]
    rw [insertRecord_recs, List.map_append]
    congr 1
    · apply map_id_of
      intro q hq
      simp [overwrite_id, insertRecord_snd_id, hfresh q hq]
    · simp [overwrite_id, insertRecord_snd_id]
  have hbatch : upsertBatch st [r1, r2] =
      (replaceRecord (insertRecord st v1).1 (overwrite (insertRecord st v1).2 v2),
        ⟨[⟨0, (insertRecord st v1).2⟩],
          [⟨1, overwrite (insertRecord st v1).2 v2⟩], []⟩) := by
    simp [upsertBatch, upsertAux, hone1, hone2, prependOutcome]
  rw [hbatch]
  refine ⟨rfl, rfl, ?_, rfl, rfl, rfl, rfl, hrep⟩
  rw [overwrite_email, he2]

theorem c1_in_batch_last_write_wins_witness :
    (upsertBatch ⟨[], 0⟩ [rawFirst, rawSecond]).2 =
      ⟨[⟨0, (insertRecord ⟨[], 0⟩ (normalize rawFirst)).2⟩],
        [⟨1, overwrite (insertRecord ⟨[], 0⟩ (normalize rawFirst)).2
          (normalize rawSecond)⟩], []⟩ ∧
    (overwrite (insertRecord ⟨[], 0⟩ (normalize rawFirst)).2
      (normalize rawSecond)).full_name = (normalize rawSecond).full_name ∧
    (upsertBatch ⟨[], 0⟩ [rawFirst, rawSecond]).1.recs =
      ([] : List Professional) ++
        [overwrite (insertRecord ⟨[], 0⟩ (normalize rawFirst)).2
          (normalize rawSecond)] := by
  have h := c1_in_batch_last_write_wins ⟨[], 0⟩ rawFirst rawSecond
    (normalize rawFirst) (normalize rawSecond) "dup@example.com"
    (validate_ok_iff.mpr ⟨by rfl, rfl⟩) (validate_ok_iff.mpr ⟨by rfl, rfl⟩)
    (by decide) (by decide) (by decide)
    (by intro p hp; simp at hp) (by intro p hp; simp at hp)
    (by intro p hp; simp at hp) (by intro p hp; simp at hp)
  exact ⟨h.1, h.2.1, h.2.2.2.2.2.2.2⟩

end SignupHub
